import Mathlib

/-!
Shallow embedding of the email-validation core of the repository
(`src/email_validator/validator.py` and `src/email_validator/dns_service.py`).

Python values reaching `EmailValidator.validate` are modelled by `PyVal`;
strings are modelled by `String` / `List Char` (Python `len` counts code
points, as does `String.length`).  Machine integers do not occur in the
source.  All definitions are executable and translated directly from the
source file; claim-side definitions built from the specification's words
are explicitly marked as such.
-/

/-- A Python runtime value, covering the shapes the validator's tests and
callers actually pass: `None`, booleans, integers, strings and lists. -/
inductive PyVal where
  | none : PyVal
  | bool (b : Bool) : PyVal
  | int (n : Int) : PyVal
  | str (s : String) : PyVal
  | list (elems : List PyVal) : PyVal

/-- Python truthiness test `not v` (negated): `None`, `False`, `0`, `""`
and `[]` are falsy. -/
def pyFalsy : PyVal → Bool
  | PyVal.none => true
  | PyVal.bool b => !b
  | PyVal.int n => n == 0
  | PyVal.str s => s.data.isEmpty
  | PyVal.list l => l.isEmpty

/-- Python `type(v).__name__` for the modelled value shapes. -/
def pyTypeName : PyVal → String
  | PyVal.none => "NoneType"
  | PyVal.bool _ => "bool"
  | PyVal.int _ => "int"
  | PyVal.str _ => "str"
  | PyVal.list _ => "list"

/-- The string payload of a `PyVal`.  Only used on paths that are reachable
solely for string values (the validator's `_check_mx_record` is declared
`email: str` and is invoked only after format validation succeeded, which
fails for every non-string value). -/
def pyToStr : PyVal → String
  | PyVal.str s => s
  | _ => ""

/-- ASCII whitespace stripped by Python's `str.strip()` (space, tab,
newline, carriage return, vertical tab, form feed).  The additional
Unicode whitespace code points stripped by Python are not modelled; no
input considered here contains them. -/
def pyIsSpace (c : Char) : Bool :=
  c == ' ' || c == '\t' || c == '\n' || c == '\r' || c == Char.ofNat 11 || c == Char.ofNat 12

/-- Python `s.strip()` on the character list. -/
def pyStripList (cs : List Char) : List Char :=
  ((cs.dropWhile pyIsSpace).reverse.dropWhile pyIsSpace).reverse

/-- Python `sub in s` for a two-character pattern `[a, b]`: some adjacent
pair of characters of `cs` is `(a, b)`. -/
def hasAdjPair (a b : Char) : List Char → Bool
  | [] => false
  | [_] => false
  | x :: y :: rest => (x == a && y == b) || hasAdjPair a b (y :: rest)

/-- Python `c in s` for a single character. -/
def containsChar (a : Char) (cs : List Char) : Bool :=
  cs.any (fun c => c == a)

/-- Python `s.count(c)` for a single character. -/
def countCharOcc (a : Char) (cs : List Char) : Nat :=
  cs.countP (fun c => c == a)

/-- `email.rsplit('@', 1)[-1]` on a character list: the characters after
the last `'@'`, or the whole list when no `'@'` occurs. -/
def rsplitAfterAtList (cs : List Char) : List Char :=
  (cs.reverse.takeWhile (fun c => c != Char.ofNat 64)).reverse

/-- `email.rsplit('@', 1)[0]` on a character list (meaningful when an
`'@'` occurs): the characters before the last `'@'`. -/
def rsplitBeforeAtList (cs : List Char) : List Char :=
  ((cs.reverse.dropWhile (fun c => c != Char.ofNat 64)).drop 1).reverse

/-- `email.rsplit('@', 1)[-1]` on strings, as used by `_check_mx_record`
to extract the lookup domain. -/
def rsplitAfterAt (s : String) : String :=
  String.mk (rsplitAfterAtList s.data)

/-- Character class of an unquoted local-part atom in `EMAIL_REGEX`:
`[a-zA-Z0-9!#$%&'*+/=?^_`{|}~-]`. -/
def isAtomChar (c : Char) : Bool :=
  c.isAlphanum || c == '!' || c == '#' || c == '$' || c == '%' || c == '&' ||
  c == Char.ofNat 39 || c == '*' || c == '+' || c == '/' || c == '=' ||
  c == '?' || c == Char.ofNat 94 || c == '_' || c == Char.ofNat 96 ||
  c == Char.ofNat 123 || c == '|' || c == Char.ofNat 125 || c == '~' || c == '-'

/-- The unquoted local-part grammar `atom(\.atom)*` of `EMAIL_REGEX`:
nonempty, atom characters and dots only, no leading, trailing or
consecutive dots. -/
def dotAtomOk (cs : List Char) : Bool :=
  !cs.isEmpty && cs.all (fun c => isAtomChar c || c == '.') &&
  !(cs.head? == some '.') && !(cs.getLast? == some '.') &&
  !hasAdjPair '.' '.' cs

/-- The quoted-string tail `(?:[^"\\]|\\.)*"` of `EMAIL_REGEX`, entered
after the opening quote.  Scans content items left to right (an escaped
pair `\\.` consumes two characters; regex `.` does not match a newline)
and stops at the first unescaped quote; returns the consumed characters
(closing quote included) and the remainder.  Backtracking cannot produce
any other closing position, so this deterministic scan is the regex's
behaviour. -/
def parseQuoted : List Char → Option (List Char × List Char)
  | [] => Option.none
  | c :: rest =>
    if c == Char.ofNat 34 then Option.some ([c], rest)
    else if c == Char.ofNat 92 then
      match rest with
      | [] => Option.none
      | d :: r =>
        if d == '\n' then Option.none
        else
          match parseQuoted r with
          | Option.some (q, rem) => Option.some (c :: d :: q, rem)
          | Option.none => Option.none
    else
      match parseQuoted rest with
      | Option.some (q, rem) => Option.some (c :: q, rem)
      | Option.none => Option.none

/-- The local-part alternation of `EMAIL_REGEX` (`"..."` or dot-atom),
returning the matched local group and the rest of the input.  Atom
characters exclude `"`, so the first character selects the alternative;
for the unquoted branch the local group must be the maximal run of
atom/dot characters (the following character, if any, is not consumable
by the local grammar). -/
def parseLocal (cs : List Char) : Option (List Char × List Char) :=
  match cs with
  | [] => Option.none
  | c :: _ =>
    if c == Char.ofNat 34 then
      match parseQuoted cs.tail with
      | Option.some (q, rem) => Option.some (c :: q, rem)
      | Option.none => Option.none
    else
      let t := cs.takeWhile (fun x => isAtomChar x || x == '.')
      if dotAtomOk t then
        Option.some (t, cs.dropWhile (fun x => isAtomChar x || x == '.'))
      else Option.none

/-- One non-final domain label of `EMAIL_REGEX`:
`[a-zA-Z0-9](?:[a-zA-Z0-9-]{0,61}[a-zA-Z0-9])?` — 1 to 63 characters,
first and last alphanumeric, interior alphanumeric or hyphen. -/
def labelOk (p : List Char) : Bool :=
  !p.isEmpty && p.length ≤ 63 &&
  (match p.head? with | some c => c.isAlphanum | _ => false) &&
  (match p.getLast? with | some c => c.isAlphanum | _ => false) &&
  p.all (fun c => c.isAlphanum || c == '-')

/-- The final label `[a-zA-Z]{2,}` of `EMAIL_REGEX`'s domain. -/
def tldOk (p : List Char) : Bool :=
  2 ≤ p.length && p.all Char.isAlpha

/-- Split a character list at every `'.'` (Python-`str.split('.')`-like;
labels of `EMAIL_REGEX` cannot contain dots, so the regex's domain
decomposition is exactly this split). -/
def splitDot : List Char → List (List Char)
  | [] => [[]]
  | c :: rest =>
    if c == '.' then [] :: splitDot rest
    else
      match splitDot rest with
      | [] => [[c]]
      | p :: ps => (c :: p) :: ps

/-- The domain grammar `(?:label\.)+[a-zA-Z]{2,}` of `EMAIL_REGEX`:
at least two dot-separated pieces, every non-final piece a valid label,
the final piece a valid TLD. -/
def domainOk (cs : List Char) : Bool :=
  let ps := splitDot cs
  2 ≤ ps.length && ps.dropLast.all labelOk && tldOk (ps.getLastD [])

/-- A full anchored match of `EMAIL_REGEX` ending at the end of the
input, returning the `local` group. -/
def emailRegexCore (cs : List Char) : Option (List Char) :=
  match parseLocal cs with
  | Option.some (loc, rest) =>
    match rest with
    | c :: rest2 =>
      if c == Char.ofNat 64 && domainOk rest2 then Option.some loc else Option.none
    | [] => Option.none
  | Option.none => Option.none

/-- `EMAIL_REGEX.match(email)`: Python's `$` also matches just before a
single trailing newline, so a match may end either at the end of the
string or one character earlier when that character is `'\n'` (the final
`[a-zA-Z]` of the pattern can never consume the newline itself, so the
two cases are exclusive). -/
def emailRegexMatch (cs : List Char) : Option (List Char) :=
  match emailRegexCore cs with
  | Option.some loc => Option.some loc
  | Option.none =>
    if cs.getLast? == some '\n' then emailRegexCore cs.dropLast else Option.none

/-- The diagnostic pattern `re.match(r'.+\.[a-zA-Z]{2,}$', domain)`,
ignoring the trailing-newline variant of `$` for the moment: some
position `i ≥ 1` holds a `'.'`, everything before it is newline-free and
nonempty, and everything after it is two or more ASCII letters. -/
def tldCore (cs : List Char) : Bool :=
  (List.range cs.length).any fun i =>
    (cs.get? i == some '.') && decide (1 ≤ i) &&
    ((cs.take i).all (fun c => c != '\n')) &&
    (let t := cs.drop (i + 1); decide (2 ≤ t.length) && t.all Char.isAlpha)

/-- `re.match(r'.+\.[a-zA-Z]{2,}$', domain)` with Python's `$` semantics
(a match may also end just before a single trailing newline). -/
def tldDiagMatch (cs : List Char) : Bool :=
  tldCore cs || ((cs.getLast? == some '\n') && tldCore cs.dropLast)

/-- `EmailValidator.MAX_EMAIL_LENGTH`. -/
def MAX_EMAIL_LENGTH : Nat := 254
/-- `EmailValidator.MAX_LOCAL_LENGTH`. -/
def MAX_LOCAL_LENGTH : Nat := 64
/-- `EmailValidator.MAX_DOMAIN_LENGTH`. -/
def MAX_DOMAIN_LENGTH : Nat := 255

/-- The diagnostic branch of `_validate_format` taken when `EMAIL_REGEX`
does not match (validator.py lines 140-172), producing the extra
best-effort error messages.  `e` is the (possibly stripped) email. -/
def formatDiagnose (e : List Char) : List String :=
  if !containsChar (Char.ofNat 64) e then ["Email is missing " ++ String.mk [Char.ofNat 39, Char.ofNat 64, Char.ofNat 39] ++ " symbol"]
  else if countCharOcc (Char.ofNat 64) e > 1 then []
  else
    let localPart := rsplitBeforeAtList e
    let domainPart := rsplitAfterAtList e
    let localErrs :=
      if localPart.isEmpty then ["Local part (before @) is empty"]
      else if localPart.length > MAX_LOCAL_LENGTH then
        ["Local part exceeds maximum length of " ++ toString MAX_LOCAL_LENGTH ++ " characters"]
      else if localPart.head? == some '.' then ["Local part starts with a dot"]
      else if localPart.getLast? == some '.' then ["Local part ends with a dot"]
      else []
    let domainErrs :=
      if domainPart.isEmpty then ["Domain part (after @) is empty"]
      else if domainPart.length > MAX_DOMAIN_LENGTH then
        ["Domain exceeds maximum length of " ++ toString MAX_DOMAIN_LENGTH ++ " characters"]
      else if !tldDiagMatch domainPart then
        (if !containsChar '.' domainPart then ["Domain is missing TLD (top-level domain)"]
         else ["Domain has invalid format"])
      else []
    localErrs ++ domainErrs

/-- `EmailValidator._validate_format` on a string input that passed the
emptiness and type checks (validator.py lines 111-190). -/
def validate_format_str (s : String) : Bool × List String × List String :=
  let cs := s.data
  let errors0 : List String :=
    if s.length > MAX_EMAIL_LENGTH then
      ["Email exceeds maximum length of " ++ toString MAX_EMAIL_LENGTH ++ " characters"]
    else []
  let stripped := pyStripList cs
  let warnings0 : List String :=
    if stripped ≠ cs then ["Email contains leading or trailing whitespace"] else []
  let e := stripped
  let errors1 := errors0 ++
    (if hasAdjPair '.' '.' e then ["Email contains consecutive dots"] else [])
  let errors2 := errors1 ++
    (if containsChar ' ' e then ["Email contains spaces"] else [])
  let errors3 := errors2 ++
    (if countCharOcc (Char.ofNat 64) e > 1 then
      ["Email contains multiple " ++ String.mk [Char.ofNat 39, Char.ofNat 64, Char.ofNat 39] ++ " symbols"]
     else [])
  let errors4 := errors3 ++
    (if hasAdjPair (Char.ofNat 64) '.' e then ["Domain cannot start with a dot"] else [])
  match emailRegexMatch e with
  | Option.none => (false, errors4 ++ formatDiagnose e, warnings0)
  | Option.some loc =>
    let errors5 := errors4 ++
      (if loc.length > MAX_LOCAL_LENGTH then
        ["Local part exceeds maximum length of " ++ toString MAX_LOCAL_LENGTH ++ " characters"]
       else [])
    let warnings1 := warnings0 ++
      (if loc.head? == some (Char.ofNat 34) && loc.getLast? == some (Char.ofNat 34) then
        ["Quoted local part detected - may not be supported by all mail servers"]
       else [])
    let warnings2 := warnings1 ++
      (if containsChar '+' loc then ["Plus addressing detected - ensure your system supports this"] else [])
    (errors5.isEmpty, errors5, warnings2)

/-- `EmailValidator._validate_format` (validator.py lines 88-190): the
falsiness check precedes the string-type check, then string inputs go
through the full format pipeline. -/
def validate_format (email : PyVal) : Bool × List String × List String :=
  if pyFalsy email then (false, ["Email address is empty"], [])
  else
    match email with
    | PyVal.str s => validate_format_str s
    | other => (false, ["Email must be a string, got " ++ pyTypeName other], [])

/-- `ValidationResult` (validator.py lines 12-28). -/
structure ValidationResult where
  is_valid : Bool
  email : PyVal
  errors : List String
  warnings : List String
  mx_valid : Option Bool

/-- `EmailValidator` configuration (validator.py lines 77-86).  The DNS
service capability is modelled by its `check_mx_record` behaviour, a pure
function from domain to boolean; both the live resolver (which catches
every DNS-layer exception and returns a boolean) and the deterministic
mock fit this shape, and neither raises, so the `except` branch of
`_check_mx_record` is unreachable for them and not modelled. -/
structure EmailValidator where
  check_mx : Bool
  dns_service : Option (String → Bool)

/-- `EmailValidator._check_mx_record` (validator.py lines 192-215): with
no DNS service configured, report the configuration error and an unknown
MX state; otherwise look up the part of the email after the last `'@'`. -/
def EmailValidator.check_mx_record (v : EmailValidator) (email : String) :
    Option Bool × List String :=
  match v.dns_service with
  | Option.none => (Option.none, ["DNS service not configured for MX record checking"])
  | Option.some f => (Option.some (f (rsplitAfterAt email)), [])

/-- `EmailValidator.validate` (validator.py lines 217-253). -/
def EmailValidator.validate (v : EmailValidator) (email : PyVal) : ValidationResult :=
  let fr := validate_format email
  let format_valid := fr.1
  let step : Option Bool × List String × List String :=
    if format_valid && v.check_mx then
      let mr := v.check_mx_record (pyToStr email)
      (mr.1, fr.2.1 ++ mr.2,
       if mr.1 == Option.some false then fr.2.2 ++ ["No MX record found for domain"]
       else fr.2.2)
    else (Option.none, fr.2.1, fr.2.2)
  let mx_valid := step.1
  let is_valid := format_valid &&
    (match mx_valid with | Option.none => true | Option.some b => b)
  { is_valid := is_valid, email := email, errors := step.2.1,
    warnings := step.2.2, mx_valid := mx_valid }

/-- `EmailValidator.validate_batch` (validator.py lines 255-265): a list
comprehension, i.e. an order-preserving map of `validate`. -/
def EmailValidator.validate_batch (v : EmailValidator) (emails : List PyVal) :
    List ValidationResult :=
  emails.map v.validate

/-- `EmailValidator.is_valid` (validator.py lines 267-277). -/
def EmailValidator.is_valid (v : EmailValidator) (email : PyVal) : Bool :=
  (v.validate email).is_valid

/-- `MockDNSService` (dns_service.py lines 153-212), reduced to its
response table; the call-history bookkeeping does not influence any
returned value. -/
structure MockDNSService where
  responses : List (String × Bool)

/-- Python `dict.get(key, default)` over an association list (the
concrete response tables used here have pairwise distinct keys). -/
def dictGet (m : List (String × Bool)) (k : String) (dflt : Bool) : Bool :=
  match m with
  | [] => dflt
  | (k2, v) :: rest => if k2 == k then v else dictGet rest k dflt

/-- `MockDNSService.check_mx_record` (dns_service.py lines 181-192):
`self.responses.get(domain, False)`. -/
def MockDNSService.check_mx_record (svc : MockDNSService) (domain : String) : Bool :=
  dictGet svc.responses domain false

/-! ## Theorems -/

/-- C8: for every input `e` (and any validator configuration), the
`email` field of `validate`'s result stores the input exactly as
received; whitespace trimming affects only the checks. -/
theorem validate_preserves_email (v : EmailValidator) (e : PyVal) :
    (v.validate e).email = e := rfl

/-- C7: batch validation is an order-preserving, independent-per-item map
of `validate`: the result has the same length as the input, and its i-th
element is the single-item validation of the i-th input, for every index. -/
theorem validate_batch_is_map (v : EmailValidator) (L : List PyVal) :
    (v.validate_batch L).length = L.length ∧
    ∀ i : Nat, (v.validate_batch L)[i]? = (L[i]?).map v.validate := by
  refine ⟨by simp [EmailValidator.validate_batch], fun i => ?_⟩
  simp [EmailValidator.validate_batch]

/-- C1: the result's `mx_valid` is non-unknown only if format validation
succeeded and MX checking was enabled; contrapositively, a format-invalid
address always has unknown `mx_valid`, whatever the resolver
configuration. -/
theorem mx_valid_gating (v : EmailValidator) (e : PyVal)
    (h : (v.validate e).mx_valid ≠ Option.none) :
    (validate_format e).1 = true ∧ v.check_mx = true := by
  rcases hf : (validate_format e).1 <;> rcases hm : v.check_mx <;>
    simp [EmailValidator.validate, hf, hm] at h ⊢

/-- Witness for `mx_valid_gating` at a concrete configured validator and
a format-valid address. -/
theorem mx_valid_gating_witness :
    ((EmailValidator.mk true (Option.some (fun _ => true))).validate
      (PyVal.str "user@example.com")).mx_valid ≠ Option.none ∧
    ((validate_format (PyVal.str "user@example.com")).1 = true ∧
     (EmailValidator.mk true (Option.some (fun _ => true))).check_mx = true) :=
  ⟨by decide, mx_valid_gating (EmailValidator.mk true (Option.some (fun _ => true)))
    (PyVal.str "user@example.com") (by decide)⟩

/-- C9: every falsy input (`None`, `0`, `False`, `""`, `[]`) yields
`is_valid = false` with errors exactly `["Email address is empty"]` and
unknown `mx_valid`; the emptiness test runs before the type test, so no
type-naming error appears even for falsy non-strings. -/
theorem falsy_input_empty_error (v : EmailValidator) (e : PyVal)
    (h : pyFalsy e = true) :
    (v.validate e).is_valid = false ∧
    (v.validate e).errors = ["Email address is empty"] ∧
    (v.validate e).mx_valid = Option.none := by
  simp [EmailValidator.validate, validate_format, h]

/-- Witness for `falsy_input_empty_error` at the falsy non-string `0`. -/
theorem falsy_input_empty_error_witness :
    pyFalsy (PyVal.int 0) = true ∧
    (((EmailValidator.mk true (Option.some (fun _ => true))).validate
        (PyVal.int 0)).is_valid = false ∧
     ((EmailValidator.mk true (Option.some (fun _ => true))).validate
        (PyVal.int 0)).errors = ["Email address is empty"] ∧
     ((EmailValidator.mk true (Option.some (fun _ => true))).validate
        (PyVal.int 0)).mx_valid = Option.none) :=
  ⟨by decide, falsy_input_empty_error
    (EmailValidator.mk true (Option.some (fun _ => true))) (PyVal.int 0) (by decide)⟩

/-- C4: with MX checking enabled, format validation successful and no DNS
resolver configured, `validate` appends the configuration error, leaves
`mx_valid` unknown, and still reports the address as valid. -/
theorem mx_unconfigured_resolver (v : EmailValidator) (e : PyVal)
    (hmx : v.check_mx = true) (hdns : v.dns_service = Option.none)
    (hfmt : (validate_format e).1 = true) :
    (v.validate e).errors =
      (validate_format e).2.1 ++ ["DNS service not configured for MX record checking"] ∧
    (v.validate e).mx_valid = Option.none ∧
    (v.validate e).is_valid = true := by
  simp [EmailValidator.validate, EmailValidator.check_mx_record, hmx, hdns, hfmt]

/-- Witness for `mx_unconfigured_resolver` at a concrete MX-enabled,
resolver-less validator and a format-valid address. -/
theorem mx_unconfigured_resolver_witness :
    (EmailValidator.mk true Option.none).check_mx = true ∧
    (EmailValidator.mk true Option.none).dns_service = Option.none ∧
    (validate_format (PyVal.str "user@example.com")).1 = true ∧
    (((EmailValidator.mk true Option.none).validate (PyVal.str "user@example.com")).errors =
      (validate_format (PyVal.str "user@example.com")).2.1 ++
        ["DNS service not configured for MX record checking"] ∧
     ((EmailValidator.mk true Option.none).validate (PyVal.str "user@example.com")).mx_valid =
      Option.none ∧
     ((EmailValidator.mk true Option.none).validate (PyVal.str "user@example.com")).is_valid =
      true) :=
  ⟨rfl, rfl, by decide, mx_unconfigured_resolver (EmailValidator.mk true Option.none)
    (PyVal.str "user@example.com") rfl rfl (by decide)⟩

/-- C5: with MX checking enabled and the deterministic stand-in resolver
configured with `no-mx.test ↦ false`, validating `user@no-mx.test` gives
`mx_valid = false`, `is_valid = false`, no errors (the MX step appends
none and the format step produced none), and exactly the no-MX warning. -/
theorem mx_absent_scenario :
    ((EmailValidator.mk true (Option.some
        ((MockDNSService.mk [("no-mx.test", false)]).check_mx_record))).validate
      (PyVal.str "user@no-mx.test")).mx_valid = Option.some false ∧
    ((EmailValidator.mk true (Option.some
        ((MockDNSService.mk [("no-mx.test", false)]).check_mx_record))).validate
      (PyVal.str "user@no-mx.test")).is_valid = false ∧
    ((EmailValidator.mk true (Option.some
        ((MockDNSService.mk [("no-mx.test", false)]).check_mx_record))).validate
      (PyVal.str "user@no-mx.test")).errors = [] ∧
    ((EmailValidator.mk true (Option.some
        ((MockDNSService.mk [("no-mx.test", false)]).check_mx_record))).validate
      (PyVal.str "user@no-mx.test")).warnings = ["No MX record found for domain"] := by
  decide

/-- C10: format trimming and MX domain extraction diverge.  For the input
`"user@example.com "` (one trailing space) with the stand-in resolver
configured `example.com ↦ true`: format validation succeeds with only the
whitespace warning, but the MX lookup receives the untrimmed domain
`"example.com "`, on which the stand-in answers `false`, so the result
has `mx_valid = false` and `is_valid = false`. -/
theorem trailing_space_mx_divergence :
    (validate_format (PyVal.str "user@example.com ")).1 = true ∧
    (validate_format (PyVal.str "user@example.com ")).2.2 =
      ["Email contains leading or trailing whitespace"] ∧
    rsplitAfterAt "user@example.com " = "example.com " ∧
    (MockDNSService.mk [("example.com", true)]).check_mx_record "example.com " = false ∧
    ((EmailValidator.mk true (Option.some
        ((MockDNSService.mk [("example.com", true)]).check_mx_record))).validate
      (PyVal.str "user@example.com ")).mx_valid = Option.some false ∧
    ((EmailValidator.mk true (Option.some
        ((MockDNSService.mk [("example.com", true)]).check_mx_record))).validate
      (PyVal.str "user@example.com ")).is_valid = false := by
  decide

/-- C3 counterexample: the claim fails for falsy non-string inputs.  For
the integer `0` — a non-string value — the validator emits only
`"Email address is empty"`, never an error naming the type `int`,
because the emptiness test runs first. -/
theorem nonstring_type_error_counterexample :
    validate_format (PyVal.int 0) = (false, ["Email address is empty"], []) ∧
    ¬ ("Email must be a string, got int" ∈ (validate_format (PyVal.int 0)).2.1) := by
  decide

/-- C3 amended: for every *truthy* non-string candidate value, the format
validator emits exactly one error naming the actual type of the value and
returns immediately with `valid = false` (and no warnings). -/
theorem truthy_nonstring_type_error (e : PyVal)
    (hstr : ∀ s, e ≠ PyVal.str s) (htruthy : pyFalsy e = false) :
    validate_format e =
      (false, ["Email must be a string, got " ++ pyTypeName e], []) := by
  cases e with
  | str s => exact absurd rfl (hstr s)
  | none => simp [pyFalsy] at htruthy
  | bool b => simp [validate_format, htruthy]
  | int n => simp [validate_format, htruthy]
  | list l => simp [validate_format, htruthy]

/-- Witness for `truthy_nonstring_type_error` at the truthy integer
`12345`. -/
theorem truthy_nonstring_type_error_witness :
    pyFalsy (PyVal.int 12345) = false ∧
    validate_format (PyVal.int 12345) =
      (false, ["Email must be a string, got " ++ pyTypeName (PyVal.int 12345)], []) :=
  ⟨by decide, truthy_nonstring_type_error (PyVal.int 12345)
    (fun s h => PyVal.noConfusion h) (by decide)⟩

/-! ## Support lemmas -/

/-- Elements of `dropWhile` come from the original list. -/
theorem mem_of_mem_dropWhile {α : Type} {p : α → Bool} {x : α} :
    ∀ {l : List α}, x ∈ l.dropWhile p → x ∈ l := by
  intro l
  induction l with
  | nil => simp [List.dropWhile]
  | cons a t ih =>
    intro h
    rw [List.dropWhile_cons] at h
    by_cases hp : p a = true
    · simp [hp] at h
      exact List.mem_cons_of_mem a (ih h)
    · simp [hp] at h
      simpa using h

/-- The head of a nonempty `dropWhile` fails the predicate. -/
theorem dropWhile_head_false {α : Type} (p : α → Bool) :
    ∀ (l : List α) (y : α) (ys : List α), l.dropWhile p = y :: ys → p y = false := by
  intro l
  induction l with
  | nil => intro y ys h; simp [List.dropWhile] at h
  | cons a t ih =>
    intro y ys h
    rw [List.dropWhile_cons] at h
    by_cases hp : p a = true
    · rw [if_pos hp] at h
      exact ih y ys h
    · rw [if_neg hp] at h
      cases h
      exact Bool.not_eq_true _ |>.mp hp

/-- `takeWhile` over a list whose first block satisfies the predicate. -/
theorem takeWhile_append_all {α : Type} (p : α → Bool) :
    ∀ (A l : List α), (∀ x ∈ A, p x = true) →
      (A ++ l).takeWhile p = A ++ l.takeWhile p := by
  intro A
  induction A with
  | nil => intro l _; simp
  | cons a t ih =>
    intro l hA
    have ha : p a = true := hA a (List.mem_cons_self a t)
    simp only [List.cons_append, List.takeWhile_cons, ha, if_true]
    rw [ih l (fun x hx => hA x (List.mem_cons_of_mem a hx))]

/-- `dropWhile` over a list whose first block satisfies the predicate. -/
theorem dropWhile_append_all {α : Type} (p : α → Bool) :
    ∀ (A l : List α), (∀ x ∈ A, p x = true) →
      (A ++ l).dropWhile p = l.dropWhile p := by
  intro A
  induction A with
  | nil => intro l _; simp
  | cons a t ih =>
    intro l hA
    have ha : p a = true := hA a (List.mem_cons_self a t)
    simp only [List.cons_append, List.dropWhile_cons, ha, if_true]
    exact ih l (fun x hx => hA x (List.mem_cons_of_mem a hx))

/-- Splitting a list at the last occurrence of a character: whenever `c`
occurs in `cs`, the list decomposes as a prefix, `c`, and the
`rsplitAfterAtList`-style suffix, which is `c`-free. -/
theorem rsplit_decomposition (c : Char) (cs : List Char) (h : c ∈ cs) :
    ∃ pre : List Char,
      cs = pre ++ c :: (cs.reverse.takeWhile (fun x => x != c)).reverse ∧
      c ∉ (cs.reverse.takeWhile (fun x => x != c)).reverse := by
  set p : Char → Bool := fun x => x != c with hp
  have hrev : cs.reverse = cs.reverse.takeWhile p ++ cs.reverse.dropWhile p :=
    (List.takeWhile_append_dropWhile p cs.reverse).symm
  have hmem : c ∈ cs.reverse := List.mem_reverse.mpr h
  -- the dropped part is nonempty and starts with `c`
  have hne : cs.reverse.dropWhile p ≠ [] := by
    intro hnil
    rw [hnil, List.append_nil] at hrev
    have := List.mem_takeWhile_imp (hrev ▸ hmem)
    simp [hp] at this
  obtain ⟨y, ys, hyys⟩ := List.exists_cons_of_ne_nil hne
  have hy : p y = false := dropWhile_head_false p _ y ys hyys
  have hyc : y = c := by
    simpa [hp] using hy
  refine ⟨ys.reverse, ?_, ?_⟩
  · have h2 : cs.reverse = cs.reverse.takeWhile p ++ c :: ys := by
      conv_lhs => rw [hrev]
      rw [hyys, hyc]
    have h3 := congrArg List.reverse h2
    rw [List.reverse_reverse] at h3
    have h4 : (cs.reverse.takeWhile p ++ c :: ys).reverse =
        ys.reverse ++ c :: (cs.reverse.takeWhile p).reverse := by
      simp
    exact h3.trans h4
  · intro hmem2
    have := List.mem_takeWhile_imp (List.mem_reverse.mp hmem2)
    simp [hp] at this

/-- Characters of the remainder returned by `parseQuoted` come from its
input (proved by strong induction on the input length, since an escaped
pair consumes two characters at once). -/
theorem parseQuoted_rem_mem :
    ∀ (n : Nat) (cs q rem : List Char), cs.length ≤ n →
      parseQuoted cs = Option.some (q, rem) → ∀ x ∈ rem, x ∈ cs := by
  intro n
  induction n with
  | zero =>
    intro cs q rem hl h x hx
    cases cs with
    | nil => simp [parseQuoted] at h
    | cons c rest => simp at hl
  | succ n ih =>
    intro cs q rem hl h x hx
    cases cs with
    | nil => simp [parseQuoted] at h
    | cons c rest =>
      have hrest : rest.length ≤ n := by
        simp only [List.length_cons] at hl
        exact Nat.lt_succ_iff.mp (Nat.lt_of_lt_of_le (Nat.lt_succ_self _) hl)
      rw [parseQuoted.eq_def] at h
      dsimp only at h
      by_cases h1 : (c == Char.ofNat 34) = true
      · rw [if_pos h1] at h
        simp only [Option.some.injEq, Prod.mk.injEq] at h
        have hx2 : x ∈ rest := by rw [h.2]; exact hx
        exact List.mem_cons_of_mem c hx2
      · rw [if_neg h1] at h
        by_cases h2 : (c == Char.ofNat 92) = true
        · rw [if_pos h2] at h
          cases rest with
          | nil => simp at h
          | cons d r =>
            dsimp only at h
            by_cases h3 : (d == '\n') = true
            · rw [if_pos h3] at h; simp at h
            · rw [if_neg h3] at h
              cases hq : parseQuoted r with
              | none => rw [hq] at h; simp at h
              | some pr =>
                obtain ⟨q0, rem0⟩ := pr
                rw [hq] at h
                simp only [Option.some.injEq, Prod.mk.injEq] at h
                have hr : r.length ≤ n := by
                  have hlt : r.length < (d :: r).length := by simp
                  exact Nat.le_of_lt (Nat.lt_of_lt_of_le hlt hrest)
                have hx0 : x ∈ rem0 := by rw [h.2]; exact hx
                have hx2 : x ∈ r := ih r q0 rem0 hr hq x hx0
                exact List.mem_cons_of_mem c (List.mem_cons_of_mem d hx2)
        · rw [if_neg h2] at h
          cases hq : parseQuoted rest with
          | none => rw [hq] at h; simp at h
          | some pr =>
            obtain ⟨q0, rem0⟩ := pr
            rw [hq] at h
            simp only [Option.some.injEq, Prod.mk.injEq] at h
            have hx0 : x ∈ rem0 := by rw [h.2]; exact hx
            exact List.mem_cons_of_mem c (ih rest q0 rem0 hrest hq x hx0)

/-- Characters of the rest returned by `parseLocal` come from its input. -/
theorem parseLocal_rest_mem (cs loc rest : List Char)
    (h : parseLocal cs = Option.some (loc, rest)) : ∀ x ∈ rest, x ∈ cs := by
  intro x hx
  cases cs with
  | nil => simp [parseLocal] at h
  | cons c t =>
    rw [parseLocal] at h
    by_cases h1 : (c == Char.ofNat 34) = true
    · rw [if_pos h1] at h
      cases hq : parseQuoted (c :: t).tail with
      | none => rw [hq] at h; simp at h
      | some pr =>
        obtain ⟨q0, rem0⟩ := pr
        rw [hq] at h
        simp only [Option.some.injEq, Prod.mk.injEq] at h
        have hx0 : x ∈ rem0 := by rw [h.2]; exact hx
        have hx2 : x ∈ (c :: t).tail :=
          parseQuoted_rem_mem (c :: t).tail.length (c :: t).tail q0 rem0 (Nat.le_refl _) hq x hx0
        exact List.mem_cons_of_mem c (by simpa using hx2)
    · rw [if_neg h1] at h
      by_cases h2 : dotAtomOk ((c :: t).takeWhile (fun x => isAtomChar x || x == '.')) = true
      · rw [if_pos h2] at h
        simp only [Option.some.injEq, Prod.mk.injEq] at h
        have hx0 : x ∈ (c :: t).dropWhile (fun x => isAtomChar x || x == '.') := by
          rw [h.2]; exact hx
        exact mem_of_mem_dropWhile hx0
      · rw [if_neg h2] at h; simp at h

/-- A string matched by `EMAIL_REGEX` contains an `'@'`. -/
theorem emailRegexCore_mem_at (cs loc : List Char)
    (h : emailRegexCore cs = Option.some loc) : Char.ofNat 64 ∈ cs := by
  rw [emailRegexCore] at h
  cases hp : parseLocal cs with
  | none => rw [hp] at h; simp at h
  | some pr =>
    obtain ⟨l0, rest⟩ := pr
    rw [hp] at h
    dsimp only at h
    cases rest with
    | nil => simp at h
    | cons c rest2 =>
      dsimp only at h
      by_cases hc : (c == Char.ofNat 64 && domainOk rest2) = true
      · have hceq : c = Char.ofNat 64 := by
          have := (Bool.and_eq_true _ _).mp hc |>.1
          exact eq_of_beq this
        have : c ∈ c :: rest2 := List.mem_cons_self c rest2
        have := parseLocal_rest_mem cs l0 (c :: rest2) hp c this
        rw [hceq] at this
        exact this
      · rw [if_neg hc] at h; simp at h

/-- A string matched by `EMAIL_REGEX.match` contains an `'@'`. -/
theorem emailRegexMatch_mem_at (cs loc : List Char)
    (h : emailRegexMatch cs = Option.some loc) : Char.ofNat 64 ∈ cs := by
  rw [emailRegexMatch] at h
  cases hc : emailRegexCore cs with
  | some l0 => exact emailRegexCore_mem_at cs l0 hc
  | none =>
    rw [hc] at h
    by_cases hl : (cs.getLast? == some '\n') = true
    · rw [if_pos hl] at h
      have := emailRegexCore_mem_at cs.dropLast loc h
      exact List.dropLast_subset cs this
    · rw [if_neg hl] at h; simp at h

/-- Characters of the stripped string come from the original. -/
theorem mem_of_mem_pyStripList (cs : List Char) (x : Char)
    (h : x ∈ pyStripList cs) : x ∈ cs := by
  rw [pyStripList] at h
  have h1 := List.mem_reverse.mp h
  have h2 := mem_of_mem_dropWhile h1
  have h3 := List.mem_reverse.mp h2
  exact mem_of_mem_dropWhile h3

/-- A format-valid string value contains an `'@'` character. -/
theorem format_valid_mem_at (s : String)
    (h : (validate_format (PyVal.str s)).1 = true) : Char.ofNat 64 ∈ s.data := by
  rw [validate_format] at h
  by_cases hf : pyFalsy (PyVal.str s) = true
  · rw [if_pos hf] at h; simp at h
  · rw [if_neg hf] at h
    rw [validate_format_str] at h
    cases hm : emailRegexMatch (pyStripList s.data) with
    | none => rw [hm] at h; simp at h
    | some loc =>
      exact mem_of_mem_pyStripList s.data (Char.ofNat 64)
        (emailRegexMatch_mem_at (pyStripList s.data) loc hm)

/-- C6: whenever the orchestrator performs an MX lookup (format valid, MX
checking enabled, resolver configured), the domain string handed to the
resolver is exactly the substring after the last `'@'` of the original,
untrimmed candidate: the candidate decomposes as a prefix, that last
`'@'`, and the `'@'`-free queried suffix. -/
theorem mx_domain_extraction (v : EmailValidator) (f : String → Bool) (s : String)
    (hmx : v.check_mx = true) (hdns : v.dns_service = Option.some f)
    (hfmt : (validate_format (PyVal.str s)).1 = true) :
    (v.validate (PyVal.str s)).mx_valid = Option.some (f (rsplitAfterAt s)) ∧
    ∃ pre : List Char,
      s.data = pre ++ Char.ofNat 64 :: (rsplitAfterAt s).data ∧
      Char.ofNat 64 ∉ (rsplitAfterAt s).data := by
  constructor
  · simp [EmailValidator.validate, EmailValidator.check_mx_record, hmx, hdns, hfmt, pyToStr]
  · have hat : Char.ofNat 64 ∈ s.data := format_valid_mem_at s hfmt
    have hdec := rsplit_decomposition (Char.ofNat 64) s.data hat
    simpa [rsplitAfterAt, rsplitAfterAtList] using hdec

/-- Witness for `mx_domain_extraction` with the stand-in resolver and a
concrete address. -/
theorem mx_domain_extraction_witness :
    (validate_format (PyVal.str "user@example.com")).1 = true ∧
    (((EmailValidator.mk true (Option.some
          ((MockDNSService.mk [("example.com", true)]).check_mx_record))).validate
        (PyVal.str "user@example.com")).mx_valid =
      Option.some ((MockDNSService.mk [("example.com", true)]).check_mx_record
        (rsplitAfterAt "user@example.com")) ∧
     ∃ pre : List Char,
       "user@example.com".data = pre ++ Char.ofNat 64 ::
         (rsplitAfterAt "user@example.com").data ∧
       Char.ofNat 64 ∉ (rsplitAfterAt "user@example.com").data) :=
  ⟨by decide, mx_domain_extraction
    (EmailValidator.mk true (Option.some
      ((MockDNSService.mk [("example.com", true)]).check_mx_record)))
    ((MockDNSService.mk [("example.com", true)]).check_mx_record)
    "user@example.com" rfl rfl (by decide)⟩

/-! ## Support for the simple-pattern validity theorem -/

/-- ASCII letters are alphanumeric. -/
theorem alpha_isAlphanum (c : Char) (h : c.isAlpha = true) : c.isAlphanum = true := by
  rw [Char.isAlphanum, h, Bool.true_or]

/-- An alphanumeric character differs from any non-alphanumeric one. -/
theorem alnum_ne_of (c d : Char) (h : c.isAlphanum = true) (hd : d.isAlphanum = false) :
    c ≠ d := by
  rintro rfl
  rw [h] at hd
  exact Bool.noConfusion hd

/-- Alphanumeric characters are not Python whitespace. -/
theorem isAlphanum_not_space (c : Char) (h : c.isAlphanum = true) : pyIsSpace c = false := by
  cases hs : pyIsSpace c with
  | false => rfl
  | true =>
    exfalso
    simp only [pyIsSpace, Bool.or_eq_true, beq_iff_eq] at hs
    rcases hs with ((((rfl | rfl) | rfl) | rfl) | rfl) | rfl <;> exact absurd h (by decide)

/-- `dropWhile` keeps a list none of whose elements satisfy the predicate. -/
theorem dropWhile_eq_self_of_none {α : Type} (p : α → Bool) (l : List α)
    (h : ∀ x ∈ l, p x = false) : l.dropWhile p = l := by
  cases l with
  | nil => simp
  | cons a t =>
    rw [List.dropWhile_cons, if_neg]
    rw [h a (List.mem_cons_self a t)]
    exact Bool.false_ne_true

/-- Stripping leaves a whitespace-free list unchanged. -/
theorem pyStripList_eq_self (cs : List Char) (h : ∀ x ∈ cs, pyIsSpace x = false) :
    pyStripList cs = cs := by
  rw [pyStripList, dropWhile_eq_self_of_none pyIsSpace cs h]
  rw [dropWhile_eq_self_of_none pyIsSpace cs.reverse
    (fun x hx => h x (List.mem_reverse.mp hx))]
  exact List.reverse_reverse cs

/-- `countP` of a character absent from the list is zero. -/
theorem countP_zero_of_ne (a : Char) (l : List Char) (h : ∀ x ∈ l, x ≠ a) :
    l.countP (fun c => c == a) = 0 := by
  rw [List.countP_eq_zero]
  intro x hx
  simp [h x hx]

/-- An adjacent equal pair forces at least two occurrences. -/
theorem hasAdjPair_two_count (a : Char) :
    ∀ cs : List Char, hasAdjPair a a cs = true → 2 ≤ cs.countP (fun c => c == a) := by
  intro cs
  induction cs with
  | nil => intro h; simp [hasAdjPair] at h
  | cons x t ih =>
    intro h
    cases t with
    | nil => simp [hasAdjPair] at h
    | cons y r =>
      simp only [hasAdjPair, Bool.or_eq_true, Bool.and_eq_true] at h
      rcases h with ⟨hx, hy⟩ | htail
      · have hx' : x = a := eq_of_beq hx
        have hy' : y = a := eq_of_beq hy
        subst hx'; subst hy'
        simp [List.countP_cons]
      · have := ih htail
        calc 2 ≤ (y :: r).countP (fun c => c == a) := this
          _ ≤ (x :: y :: r).countP (fun c => c == a) := by
            conv_rhs => rw [List.countP_cons]
            exact Nat.le_add_right _ _

/-- An adjacent pair yields an explicit decomposition. -/
theorem hasAdjPair_decomp (a b : Char) :
    ∀ cs : List Char, hasAdjPair a b cs = true →
      ∃ l r : List Char, cs = l ++ a :: b :: r := by
  intro cs
  induction cs with
  | nil => intro h; simp [hasAdjPair] at h
  | cons x t ih =>
    intro h
    cases t with
    | nil => simp [hasAdjPair] at h
    | cons y r =>
      simp only [hasAdjPair, Bool.or_eq_true, Bool.and_eq_true] at h
      rcases h with ⟨hx, hy⟩ | htail
      · exact ⟨[], r, by rw [eq_of_beq hx, eq_of_beq hy]; rfl⟩
      · obtain ⟨l, r2, hlr⟩ := ih htail
        exact ⟨x :: l, r2, by rw [List.cons_append, ← hlr]⟩

/-- Splitting an append at a character absent from both prefixes is
unique. -/
theorem append_cons_unique (c : Char) :
    ∀ (A l r1 r2 : List Char), (∀ x ∈ A, x ≠ c) → (∀ x ∈ l, x ≠ c) →
      A ++ c :: r1 = l ++ c :: r2 → A = l ∧ r1 = r2 := by
  intro A
  induction A with
  | nil =>
    intro l r1 r2 _ hl heq
    cases l with
    | nil => simpa using heq
    | cons y t =>
      simp only [List.nil_append, List.cons_append, List.cons.injEq] at heq
      exact absurd heq.1.symm (hl y (List.mem_cons_self y t))
  | cons a t ih =>
    intro l r1 r2 hA hl heq
    cases l with
    | nil =>
      simp only [List.nil_append, List.cons_append, List.cons.injEq] at heq
      exact absurd heq.1 (hA a (List.mem_cons_self a t))
    | cons y u =>
      simp only [List.cons_append, List.cons.injEq] at heq
      obtain ⟨rfl, heq2⟩ := heq
      obtain ⟨h1, h2⟩ := ih u r1 r2
        (fun x hx => hA x (List.mem_cons_of_mem a hx))
        (fun x hx => hl x (List.mem_cons_of_mem a hx)) heq2
      exact ⟨by rw [h1], h2⟩

/-- `splitDot` of a dot-free list is the singleton of that list. -/
theorem splitDot_no_dot :
    ∀ cs : List Char, (∀ x ∈ cs, x ≠ '.') → splitDot cs = [cs] := by
  intro cs
  induction cs with
  | nil => intro _; rfl
  | cons c t ih =>
    intro h
    have hc : (c == '.') = false := by
      simp [h c (List.mem_cons_self c t)]
    rw [splitDot, if_neg (by rw [hc]; exact Bool.false_ne_true)]
    rw [ih (fun x hx => h x (List.mem_cons_of_mem c hx))]

/-- `splitDot` splits off a dot-free first block at the first dot. -/
theorem splitDot_append (B C : List Char) (hB : ∀ x ∈ B, x ≠ '.') :
    splitDot (B ++ '.' :: C) = B :: splitDot C := by
  induction B with
  | nil =>
    rw [List.nil_append, splitDot, if_pos (by simp)]
  | cons b t ih =>
    have hb : (b == '.') = false := by
      simp [hB b (List.mem_cons_self b t)]
    rw [List.cons_append, splitDot, if_neg (by rw [hb]; exact Bool.false_ne_true)]
    rw [ih (fun x hx => hB x (List.mem_cons_of_mem b hx))]

/-- Claim-side pattern (from the specification's words): the candidate
matches `^[A-Za-z0-9]+@[A-Za-z]{2,63}\.[A-Za-z]{2,}$`, its total length
is at most 254, its local part has length at most 64 and its domain
length at most 255. -/
def specC2Pattern (s : String) : Prop :=
  ∃ A B C : List Char,
    s.data = A ++ Char.ofNat 64 :: (B ++ '.' :: C) ∧
    A ≠ [] ∧ (∀ c ∈ A, c.isAlphanum = true) ∧
    2 ≤ B.length ∧ B.length ≤ 63 ∧ (∀ c ∈ B, c.isAlpha = true) ∧
    2 ≤ C.length ∧ (∀ c ∈ C, c.isAlpha = true) ∧
    s.length ≤ 254 ∧ A.length ≤ 64 ∧ B.length + 1 + C.length ≤ 255

/-- C2: every string matching the spec's simple pattern
`^[A-Za-z0-9]+@[A-Za-z]{2,63}\.[A-Za-z]{2,}$` (with total length ≤ 254,
local part ≤ 64 and domain ≤ 255) is accepted, with no errors, by a
validator whose MX checking is disabled. -/
theorem simple_format_is_valid (v : EmailValidator) (s : String)
    (hmx : v.check_mx = false) (hpat : specC2Pattern s) :
    v.is_valid (PyVal.str s) = true ∧ (v.validate (PyVal.str s)).errors = [] := by
  obtain ⟨A, B, C, hdata, hAne, hA, hB2, hB63, hB, hC2, hC, hlen, hA64, hBC⟩ := hpat
  cases A with
  | nil => exact absurd rfl hAne
  | cons a0 A' =>
  -- character classification
  have hBalnum : ∀ c ∈ B, c.isAlphanum = true := fun c hc => alpha_isAlphanum c (hB c hc)
  have hCalnum : ∀ c ∈ C, c.isAlphanum = true := fun c hc => alpha_isAlphanum c (hC c hc)
  have hclass : ∀ x ∈ s.data, x.isAlphanum = true ∨ x = Char.ofNat 64 ∨ x = '.' := by
    rw [hdata]
    intro x hx
    rcases List.mem_append.mp hx with hxa | hxr
    · exact Or.inl (hA x hxa)
    · rcases List.mem_cons.mp hxr with rfl | hxr2
      · exact Or.inr (Or.inl rfl)
      · rcases List.mem_append.mp hxr2 with hxb | hxc
        · exact Or.inl (hBalnum x hxb)
        · rcases List.mem_cons.mp hxc with rfl | hxc2
          · exact Or.inr (Or.inr rfl)
          · exact Or.inl (hCalnum x hxc2)
  have hAneAt : ∀ x ∈ a0 :: A', x ≠ Char.ofNat 64 :=
    fun x hx => alnum_ne_of x _ (hA x hx) (by decide)
  have hBneAt : ∀ x ∈ B, x ≠ Char.ofNat 64 :=
    fun x hx => alnum_ne_of x _ (hBalnum x hx) (by decide)
  have hCneAt : ∀ x ∈ C, x ≠ Char.ofNat 64 :=
    fun x hx => alnum_ne_of x _ (hCalnum x hx) (by decide)
  have hAneDot : ∀ x ∈ a0 :: A', x ≠ '.' :=
    fun x hx => alnum_ne_of x _ (hA x hx) (by decide)
  have hBneDot : ∀ x ∈ B, x ≠ '.' :=
    fun x hx => alnum_ne_of x _ (hBalnum x hx) (by decide)
  have hCneDot : ∀ x ∈ C, x ≠ '.' :=
    fun x hx => alnum_ne_of x _ (hCalnum x hx) (by decide)
  -- occurrence counts
  have e1 : (('.' : Char) == Char.ofNat 64) = false := by decide
  have e2 : ((Char.ofNat 64) == Char.ofNat 64) = true := by decide
  have e3 : ((Char.ofNat 64) == ('.' : Char)) = false := by decide
  have e4 : (('.' : Char) == ('.' : Char)) = true := by decide
  have hcountAt : s.data.countP (fun c => c == Char.ofNat 64) = 1 := by
    rw [hdata, List.countP_append, countP_zero_of_ne _ _ hAneAt, List.countP_cons,
      List.countP_append, countP_zero_of_ne _ _ hBneAt, List.countP_cons,
      countP_zero_of_ne _ _ hCneAt]
    simp [e1, e2]
  have hcountDot : s.data.countP (fun c => c == '.') = 1 := by
    rw [hdata, List.countP_append, countP_zero_of_ne _ _ hAneDot, List.countP_cons,
      List.countP_append, countP_zero_of_ne _ _ hBneDot, List.countP_cons,
      countP_zero_of_ne _ _ hCneDot]
    simp [e3, e4]
  -- the pre-regex checks all pass
  have hnospace : ∀ x ∈ s.data, pyIsSpace x = false := by
    intro x hx
    rcases hclass x hx with h1 | rfl | rfl
    · exact isAlphanum_not_space x h1
    · decide
    · decide
  have hstrip : pyStripList s.data = s.data := pyStripList_eq_self s.data hnospace
  have hdots : hasAdjPair '.' '.' s.data = false := by
    cases hh : hasAdjPair '.' '.' s.data with
    | false => rfl
    | true =>
      exfalso
      have h2 := hasAdjPair_two_count '.' s.data hh
      rw [hcountDot] at h2
      omega
  have hspacechar : containsChar ' ' s.data = false := by
    cases hh : containsChar ' ' s.data with
    | false => rfl
    | true =>
      exfalso
      rw [containsChar, List.any_eq_true] at hh
      obtain ⟨x, hx, hxeq⟩ := hh
      rcases hclass x hx with h1 | rfl | rfl
      · have hxsp := eq_of_beq hxeq
        rw [hxsp] at h1
        exact absurd h1 (by decide)
      · exact absurd (eq_of_beq hxeq) (by decide)
      · exact absurd (eq_of_beq hxeq) (by decide)
  have hcount1 : ¬ (countCharOcc (Char.ofNat 64) s.data > 1) := by
    rw [countCharOcc, hcountAt]
    omega
  have hatdot : hasAdjPair (Char.ofNat 64) '.' s.data = false := by
    cases hh : hasAdjPair (Char.ofNat 64) '.' s.data with
    | false => rfl
    | true =>
      exfalso
      obtain ⟨l, r, hlr⟩ := hasAdjPair_decomp _ _ s.data hh
      have h1 : s.data.countP (fun c => c == Char.ofNat 64) =
          l.countP (fun c => c == Char.ofNat 64) +
            (('.' :: r).countP (fun c => c == Char.ofNat 64) + 1) := by
        rw [hlr, List.countP_append, List.countP_cons]
        simp
      rw [hcountAt] at h1
      have hl0 : l.countP (fun c => c == Char.ofNat 64) = 0 := by omega
      have hlne : ∀ x ∈ l, x ≠ Char.ofNat 64 := by
        intro x hx heq
        have hnp := List.countP_eq_zero.mp hl0 x hx
        apply hnp
        rw [heq]
        exact beq_self_eq_true _
      obtain ⟨hAl, hrest⟩ := append_cons_unique (Char.ofNat 64) (a0 :: A') l
        (B ++ '.' :: C) ('.' :: r) hAneAt hlne (by rw [← hdata]; exact hlr)
      cases B with
      | nil => simp at hB2
      | cons b0 B' =>
        rw [List.cons_append] at hrest
        have hb0 : b0 = '.' := (List.cons.injEq b0 _ '.' _).mp hrest |>.1
        exact absurd hb0 (hBneDot b0 (List.mem_cons_self b0 B'))
  -- the regex matches with local group `a0 :: A'`
  have hAallAtom : ∀ x ∈ a0 :: A', (fun x => isAtomChar x || x == '.') x = true := by
    intro x hx
    simp [isAtomChar, hA x hx]
  have htake : ((a0 :: A') ++ Char.ofNat 64 :: (B ++ '.' :: C)).takeWhile
      (fun x => isAtomChar x || x == '.') = a0 :: A' := by
    rw [takeWhile_append_all _ _ _ hAallAtom, List.takeWhile_cons, if_neg (by decide)]
    simp
  have hdrop : ((a0 :: A') ++ Char.ofNat 64 :: (B ++ '.' :: C)).dropWhile
      (fun x => isAtomChar x || x == '.') = Char.ofNat 64 :: (B ++ '.' :: C) := by
    rw [dropWhile_append_all _ _ _ hAallAtom, List.dropWhile_cons, if_neg (by decide)]
  have hcA : (a0 :: A').countP (fun c => c == '.') = 0 := countP_zero_of_ne _ _ hAneDot
  have hadjA : hasAdjPair '.' '.' (a0 :: A') = false := by
    cases hh : hasAdjPair '.' '.' (a0 :: A') with
    | false => rfl
    | true =>
      exfalso
      have h2 := hasAdjPair_two_count '.' _ hh
      rw [hcA] at h2
      omega
  have hdotA : dotAtomOk (a0 :: A') = true := by
    rw [dotAtomOk]
    simp only [Bool.and_eq_true, Bool.not_eq_true']
    refine ⟨⟨⟨⟨by simp, List.all_eq_true.mpr hAallAtom⟩, ?_⟩, ?_⟩, hadjA⟩
    · simp [alnum_ne_of a0 '.' (hA a0 (List.mem_cons_self a0 A')) (by decide)]
    · have hne : (a0 :: A') ≠ [] := by simp
      rw [List.getLast?_eq_getLast_of_ne_nil hne]
      simp [hAneDot _ (List.getLast_mem hne)]
  have hq0 : (a0 == Char.ofNat 34) = false := by
    simp [alnum_ne_of a0 (Char.ofNat 34) (hA a0 (List.mem_cons_self a0 A')) (by decide)]
  have hparse : parseLocal ((a0 :: A') ++ Char.ofNat 64 :: (B ++ '.' :: C)) =
      Option.some (a0 :: A', Char.ofNat 64 :: (B ++ '.' :: C)) := by
    rw [List.cons_append, parseLocal,
      if_neg (by rw [hq0]; exact Bool.false_ne_true)]
    rw [← List.cons_append, htake, hdrop]
    rw [if_pos hdotA]
  have hlabelB : labelOk B = true := by
    cases B with
    | nil => simp at hB2
    | cons b0 B' =>
      rw [labelOk]
      simp only [Bool.and_eq_true]
      refine ⟨⟨⟨⟨by simp, ?_⟩, ?_⟩, ?_⟩, ?_⟩
      · exact decide_eq_true hB63
      · simp [hBalnum b0 (List.mem_cons_self b0 B')]
      · have hne : (b0 :: B') ≠ [] := by simp
        rw [List.getLast?_eq_getLast_of_ne_nil hne]
        simp [hBalnum _ (List.getLast_mem hne)]
      · exact List.all_eq_true.mpr (fun x hx => by simp [hBalnum x hx])
  have htldC : tldOk C = true := by
    rw [tldOk]
    simp only [Bool.and_eq_true]
    exact ⟨decide_eq_true hC2, List.all_eq_true.mpr (fun x hx => by simp [hC x hx])⟩
  have hdomOk : domainOk (B ++ '.' :: C) = true := by
    simp only [domainOk]
    rw [splitDot_append B C hBneDot, splitDot_no_dot C hCneDot]
    simp [hlabelB, htldC]
  have hcore : emailRegexCore ((a0 :: A') ++ Char.ofNat 64 :: (B ++ '.' :: C)) =
      Option.some (a0 :: A') := by
    have hcond : (Char.ofNat 64 == Char.ofNat 64 && domainOk (B ++ '.' :: C)) = true := by
      rw [hdomOk]
      decide
    rw [emailRegexCore, hparse]
    dsimp only
    rw [if_pos hcond]
  have hmatch : emailRegexMatch s.data = Option.some (a0 :: A') := by
    rw [hdata, emailRegexMatch, hcore]
  -- assemble the format result
  have hslen : ¬ (s.length > MAX_EMAIL_LENGTH) := by
    unfold MAX_EMAIL_LENGTH
    omega
  have hlocal64 : ¬ ((a0 :: A').length > MAX_LOCAL_LENGTH) := by
    unfold MAX_LOCAL_LENGTH
    omega
  have hheadq : ((a0 :: A').head? == some (Char.ofNat 34)) = false := by
    simp [alnum_ne_of a0 (Char.ofNat 34) (hA a0 (List.mem_cons_self a0 A')) (by decide)]
  have hplus : containsChar '+' (a0 :: A') = false := by
    cases hh : containsChar '+' (a0 :: A') with
    | false => rfl
    | true =>
      exfalso
      rw [containsChar, List.any_eq_true] at hh
      obtain ⟨x, hx, hxeq⟩ := hh
      exact absurd (eq_of_beq hxeq) (alnum_ne_of x '+' (hA x hx) (by decide))
  have hlocal64n : A'.length + 1 ≤ MAX_LOCAL_LENGTH := by
    unfold MAX_LOCAL_LENGTH
    have h0 := hA64
    simp only [List.length_cons] at h0
    omega
  have hq0n : a0 ≠ Char.ofNat 34 :=
    alnum_ne_of a0 (Char.ofNat 34) (hA a0 (List.mem_cons_self a0 A')) (by decide)
  have hvfs : validate_format_str s = (true, [], []) := by
    simp [validate_format_str, hstrip, hdots, hspacechar, hatdot, hmatch, hslen,
      hcount1, hlocal64, hlocal64n, hheadq, hq0n, hplus]
  have hfalsy : pyFalsy (PyVal.str s) = false := by
    simp [pyFalsy, hdata]
  have hvf : validate_format (PyVal.str s) = (true, [], []) := by
    simp [validate_format, hfalsy, hvfs]
  constructor
  · simp [EmailValidator.is_valid, EmailValidator.validate, hvf, hmx]
  · simp [EmailValidator.validate, hvf, hmx]

/-- Witness for `simple_format_is_valid` at the pattern instance
`a@bc.de`. -/
theorem simple_format_is_valid_witness :
    (EmailValidator.mk false Option.none).check_mx = false ∧
    specC2Pattern "a@bc.de" ∧
    ((EmailValidator.mk false Option.none).is_valid (PyVal.str "a@bc.de") = true ∧
     ((EmailValidator.mk false Option.none).validate (PyVal.str "a@bc.de")).errors = []) := by
  have hp : specC2Pattern "a@bc.de" :=
    ⟨['a'], ['b', 'c'], ['d', 'e'], by decide, by decide, by decide, by decide,
     by decide, by decide, by decide, by decide, by decide, by decide, by decide⟩
  exact ⟨rfl, hp, simple_format_is_valid (EmailValidator.mk false Option.none) "a@bc.de" rfl hp⟩
